import Mathlib

/-!
Verification of the `now dev` development server core
(`packages/now-cli/src/util/dev/server.ts`).

The TypeScript source is shallowly embedded: JavaScript objects and `Map`s
become association lists, JS `Set`s become `Finset String`, promises become
explicit step functions on a scheduler state, and the relevant fragments of
the HTTP dispatcher become pure functions of the data they inspect.
-/

set_option autoImplicit false

namespace NowDev

/-! ## Association-list primitives (JS object / `Map` access) -/

/-- Lookup in an association list; models `obj[key]` / `map.get(key)`
(first matching entry wins, mirroring unique JS keys). -/
def alistLookup {α : Type} (l : List (String × α)) (k : String) : Option α :=
  (l.find? (fun e => e.1 == k)).map (·.2)

/-- Removing a key, models `delete obj[key]` / `map.delete(key)`. -/
def alistErase {α : Type} (l : List (String × α)) (k : String) : List (String × α) :=
  l.filter (fun e => e.1 != k)

/-! ## The build-match data model

`BuildMatch` (from `./types`): the fields the verified code paths touch are
`src`, `buildTimestamp` and `buildOutput`.  Assets (`BuilderOutput`) are a
tagged variant of file reference, in-memory blob, or invocable function. -/

inductive BuilderOutput : Type
  | fileFsRef (fsPath : String) (mode : Nat)
  | fileBlob (data : String)
  | lambda (fnId : Nat)
deriving DecidableEq, Repr

structure BuildMatch : Type where
  src : String
  buildTimestamp : Int
  buildOutput : List (String × BuilderOutput)
deriving DecidableEq, Repr

/-! ## Build scheduler (`DevServer.triggerBuild`, lines 1032-1091)

The in-progress-build map `inProgressBuilds : Map<string, Promise<void>>`
becomes an association list from build key to a promise identifier.  A call
to `triggerBuild` runs one of three branches (de-dupe / cooldown skip /
start); the `finally` block that clears the map entry once the awaited
promise settles is modelled by `finishBuild`. -/

/-- Line 1042-1043: the per-match build key.
`requestPath === null ? match.src : (match.src + "-" + requestPath)`. -/
def buildKey (m : BuildMatch) (requestPath : Option String) : String :=
  match requestPath with
  | none => m.src
  | some p => m.src ++ "-" ++ p

/-- Spec-side build key, following the words of the specification
(section 4.4): `src` when the build-result key is the sentinel, else
`src + "\n" + requestPath`.  Compared to `buildKey` (from the source). -/
def buildKeySpecced (src : String) (requestPath : Option String) : String :=
  match requestPath with
  | none => src
  | some p => src ++ "\n" ++ p

/-- The in-progress-build table of the server. -/
structure SchedulerState : Type where
  inProgressBuilds : List (String × Nat)
deriving DecidableEq, Repr

/-- Outcome of one `triggerBuild` call. -/
inductive TriggerOutcome : Type
  /-- Line 1045-1050: a build for the key is already in progress, so no new
  build is started and the existing promise is awaited. -/
  | awaitExisting (promiseId : Nat)
  /-- Line 1051-1058: the built asset is newer than 2 seconds, skip. -/
  | skipCooldown
  /-- Line 1059-1083: start a fresh build and record it in the map. -/
  | startBuild (promiseId : Nat)
deriving DecidableEq, Repr

/-- Two seconds in milliseconds: `ms("2s")`. -/
def msTwoSeconds : Int := 2000

/-- One `triggerBuild` call up to the point where the build promise is
awaited.  `now` is `Date.now()` and `freshId` identifies the promise
returned by `executeBuild` in the start branch. -/
def triggerBuild (st : SchedulerState) (m : BuildMatch) (requestPath : Option String)
    (now : Int) (freshId : Nat) : TriggerOutcome × SchedulerState :=
  let key := buildKey m requestPath
  match alistLookup st.inProgressBuilds key with
  | some pid => (.awaitExisting pid, st)
  | none =>
    if now - m.buildTimestamp < msTwoSeconds then
      (.skipCooldown, st)
    else
      (.startBuild freshId, ⟨(key, freshId) :: st.inProgressBuilds⟩)

/-- The `finally` block (lines 1085-1090): once the awaited build promise
settles, the entry for the key is deleted.  `resolved` records whether the
promise resolved or rejected; the cleanup ignores it. -/
def finishBuild (st : SchedulerState) (key : String) (resolved : Bool) : SchedulerState :=
  match resolved with
  | true => ⟨alistErase st.inProgressBuilds key⟩
  | false => ⟨alistErase st.inProgressBuilds key⟩

/-! ## FS-event aggregator result sets (`fileChanged` / `fileRemoved`,
lines 1690-1708, driven by `handleFilesystemEvents` lines 179-215)

One batch starts with two empty sets `filesChanged` and `filesRemoved`
(lines 182-183).  Every processed event ends in one of two markings:
a successful `add` / `change` calls `fileChanged`, while an `unlink` (or an
`add` / `change` whose stat hits `ENOENT`) calls `fileRemoved`. -/

/-- Lines 1690-1697: mark a path as changed. -/
def fileChanged (name : String) (changed removed : Finset String) :
    Finset String × Finset String :=
  (insert name changed, removed.erase name)

/-- Lines 1699-1708: mark a path as removed, also dropping it from the
file index (`delete files[name]`). -/
def fileRemoved (name : String) (files : List (String × BuilderOutput))
    (changed removed : Finset String) :
    List (String × BuilderOutput) × Finset String × Finset String :=
  (alistErase files name, changed.erase name, insert name removed)

/-- State carried through one filesystem batch: the file index and the two
result sets. -/
structure WatchBatchState : Type where
  files : List (String × BuilderOutput)
  changed : Finset String
  removed : Finset String

/-- Net marking of one processed event. -/
inductive FsNetEvent : Type
  /-- `handleFileCreated` / `handleFileModified` with a successful stat:
  `this.files[name] = ref` followed by `fileChanged`. -/
  | markChanged (name : String) (ref : BuilderOutput)
  /-- `handleFileDeleted`, or a created/modified path that has since been
  deleted (`ENOENT`): `fileRemoved`. -/
  | markRemoved (name : String)

def applyFsEvent (st : WatchBatchState) : FsNetEvent → WatchBatchState
  | .markChanged n ref =>
    let files2 := (n, ref) :: alistErase st.files n
    let cr := fileChanged n st.changed st.removed
    ⟨files2, cr.1, cr.2⟩
  | .markRemoved n =>
    let fcr := fileRemoved n st.files st.changed st.removed
    ⟨fcr.1, fcr.2.1, fcr.2.2⟩

/-- One batch of `handleFilesystemEvents`, starting from empty result sets. -/
def processFsEvents (files0 : List (String × BuilderOutput))
    (events : List FsNetEvent) : WatchBatchState :=
  events.foldl applyFsEvent ⟨files0, ∅, ∅⟩

/-- The net effect of a batch on one path: `some true` when the last event
touching the path marked it changed, `some false` when it marked it
removed, `none` when no event touched it. -/
def markStep (n : String) (acc : Option Bool) : FsNetEvent → Option Bool
  | .markChanged m _ => if m = n then some true else acc
  | .markRemoved m => if m = n then some false else acc

def lastMark (events : List FsNetEvent) (n : String) : Option Bool :=
  events.foldl (markStep n) none

/-! ## Environment merging (`DevServer.validateEnvConfig`, lines 629-674) -/

abbrev EnvConfig := List (String × String)

/-- Line 655: the env-var-name pattern, `^[a-zA-Z][a-zA-Z0-9_]*$`. -/
def validEnvName (s : String) : Bool :=
  match s.data with
  | [] => false
  | c :: rest => c.isAlpha && rest.all (fun x => x.isAlphanum || x == '_')

/-- Line 649: the JS object spread `{ ...env, ...localEnv }` — entries of
`env` in order with values overridden by `localEnv`, followed by the
entries only `localEnv` has. -/
def mergeEnv (env localEnv : EnvConfig) : EnvConfig :=
  env.map (fun e => (e.1, (alistLookup localEnv e.1).getD e.2))
    ++ localEnv.filter (fun e => (alistLookup env e.1).isNone)

/-- The test `value.startsWith("@")` of line 640. -/
def startsWithAtSign (s : String) : Bool :=
  s.data.head? == some '@'

/-- Lines 629-674: reject when an `@`-reference of the base env is missing
from the local env (`MissingDotenvVarsError`), otherwise merge and drop
every key that fails the name pattern. -/
def validateEnvConfig (type : String) (env localEnv : EnvConfig) :
    Except (String × List String) EnvConfig :=
  let missing := (env.filter (fun e =>
      startsWithAtSign e.2 && (alistLookup localEnv e.1).isNone)).map (·.1)
  if missing.isEmpty then
    .ok ((mergeEnv env localEnv).filter (fun e => validEnvName e.1))
  else
    .error (type, missing)

/-! ## URL normalization (`serveProjectAsNowV2`, lines 1136-1154) -/

/-- Auxiliary scan for the JS `replace(/\/+/g, "/")`: a slash is dropped
exactly when the previous kept character is a slash, so every maximal run
of slashes collapses to a single slash. -/
def collapseSlashesAux : Option Char → List Char → List Char
  | _, [] => []
  | prev, c :: rest =>
    if c == '/' && prev == some '/' then collapseSlashesAux prev rest
    else c :: collapseSlashesAux (some c) rest

/-- `pathname.replace(/\/+/g, "/")` (line 1140). -/
def collapseSlashes (cs : List Char) : List Char :=
  collapseSlashesAux none cs

/-- `pathname.includes("//")` (line 1139). -/
def hasDoubleSlash : List Char → Bool
  | [] => false
  | c :: rest => (c == '/' && rest.head? == some '/') || hasDoubleSlash rest

/-- What the double-slash block of `serveProjectAsNowV2` does with the
request. -/
inductive UrlCleanupAction : Type
  /-- Line 1148: `GET` requests get a 301 redirect to the cleaned URL. -/
  | redirect (location : String) (status : Nat)
  /-- Line 1153: other methods have `req.url` rewritten in place and
  processing continues. -/
  | rewrite (location : String)
  /-- No double slash in the pathname: the block is skipped. -/
  | noChange
deriving DecidableEq, Repr

/-- Lines 1136-1154.  `pathname` and `search` are the two components of
`url.parse(req.url)`; `search` keeps its leading question mark. -/
def urlCleanup (method : String) (pathname : String) (search : Option String) :
    UrlCleanupAction :=
  if hasDoubleSlash pathname.data then
    let location := (⟨collapseSlashes pathname.data⟩ : String) ++ search.getD ""
    if method == "GET" then .redirect location 301
    else .rewrite location
  else
    .noChange

/-! ## Node `path.posix` helpers used by `findAsset` -/

/-- Trailing forward slashes of a path, dropped. -/
def dropTrailingSlashes (cs : List Char) : List Char :=
  (cs.reverse.dropWhile (fun c => c == '/')).reverse

/-- The longest slash-free suffix — the final path segment. -/
def lastSegmentOf (cs : List Char) : List Char :=
  (cs.reverse.takeWhile (fun c => c != '/')).reverse

/-- Node `path.posix.dirname`: everything before the final segment,
without the separating slash; `"."` when there is no directory part. -/
def dirname (path : String) : String :=
  match path.data with
  | [] => "."
  | c0 :: _ =>
    let hasRoot := c0 == '/'
    let t := dropTrailingSlashes path.data
    let segment := lastSegmentOf t
    let stem := t.take (t.length - segment.length)
    if stem.length ≤ 1 then (if hasRoot then "/" else ".")
    else if hasRoot && stem.length == 2 then "//"
    else ⟨stem.dropLast⟩

/-- Node `path.posix.basename(path, ext)`: the final segment, with `ext`
dropped when it is a proper suffix of that segment. -/
def basename (path : String) (ext : String) : String :=
  let b := lastSegmentOf (dropTrailingSlashes path.data)
  let e := ext.data
  if e.isSuffixOf b && b != e then ⟨b.take (b.length - e.length)⟩ else ⟨b⟩

/-- Index of the last dot of a segment. -/
def lastDotIdx (cs : List Char) : Option Nat :=
  (cs.reverse.findIdx? (fun c => c == '.')).map (fun i => cs.length - 1 - i)

/-- Node `path.posix.extname`: from the last dot of the final segment to
its end; empty when the dot is the leading character of the segment or the
segment is exactly `".."`. -/
def extname (path : String) : String :=
  let b := lastSegmentOf (dropTrailingSlashes path.data)
  match lastDotIdx b with
  | none => ""
  | some 0 => ""
  | some j => if b == ['.', '.'] then "" else ⟨b.drop j⟩

/-- Lines 1672-1678. -/
def dirnameWithoutDot (path : String) : String :=
  let dir := dirname path
  if dir == "." then "" else dir

/-- Lines 1680-1684: the basename with its extension removed is `index`. -/
def isIndex (path : String) : Bool :=
  basename path (extname path) == "index"

/-- `requestPath.replace(/\/$/, "")` (line 1652): one trailing slash
dropped. -/
def stripTrailingSlash (s : String) : String :=
  if s.data.getLast? == some '/' then ⟨s.data.dropLast⟩ else s

/-- `findAsset` (lines 1645-1670).  The guard `if (!match.buildOutput)`
never fires for an object value (an empty JS object is truthy), so the
embedding goes straight to the lookups. -/
def findAsset (m : BuildMatch) (requestPath : String) :
    Option (BuilderOutput × String) :=
  let assetKey := stripTrailingSlash requestPath
  match alistLookup m.buildOutput requestPath with
  | some asset => some (asset, assetKey)
  | none =>
    match m.buildOutput.find?
        (fun e => isIndex e.1 && dirnameWithoutDot e.1 == assetKey) with
    | some e => some (e.2, e.1)
    | none => none

/-! ## The asset phase of the dispatcher (lines 1260-1271) -/

/-- The two request headers `DevServer.shouldRebuild` inspects. -/
structure RequestHeaders : Type where
  pragma : Option String
  cacheControl : Option String
deriving DecidableEq, Repr

/-- `DevServer.shouldRebuild` (lines 872-877). -/
def shouldRebuild (h : RequestHeaders) : Bool :=
  h.pragma == some "no-cache" || h.cacheControl == some "no-cache"

structure AssetPhaseResult : Type where
  buildTriggered : Bool
  /-- `some (asset, assetKey)` is served; `none` ends in `send404`. -/
  response : Option (BuilderOutput × String)
deriving DecidableEq, Repr

/-- Lines 1260-1271 of `serveProjectAsNowV2`: resolve the asset; when the
asset is missing or the request asks for no cache — and only at call level
0 — await `triggerBuild` and resolve again.  `triggerBuildEffect` abstracts
what the awaited build does to the match. -/
def assetPhase (m : BuildMatch) (requestPath : String) (h : RequestHeaders)
    (callLevel : Nat) (triggerBuildEffect : BuildMatch → BuildMatch) :
    AssetPhaseResult :=
  let foundAsset := findAsset m requestPath
  if (foundAsset.isNone || shouldRebuild h) && callLevel == 0 then
    { buildTriggered := true,
      response := findAsset (triggerBuildEffect m) requestPath }
  else
    { buildTriggered := false, response := foundAsset }

/-! ## Lambda status handling (lines 1189-1201 and 1356-1358) -/

/-- Line 1191: the statuses that short-circuit into a redirect response. -/
def redirectStatuses : List Nat := [301, 302, 303]

inductive LambdaDispatch : Type
  /-- The route status was 301/302/303: `sendRedirect` answers and the
  Lambda is never invoked. -/
  | redirected (status : Nat)
  /-- The Lambda was invoked; the final `res.statusCode` is recorded. -/
  | responded (statusCode : Nat)
deriving DecidableEq, Repr

/-- Status flow for a request that routes to a Lambda asset: line 1190
assigns a truthy route `status` to `res.statusCode` (redirecting for
301/302/303), and line 1356-1357 assigns the statusCode of the invocation
result only under `if (!status)`. -/
def dispatchLambdaStatus (routeStatus : Option Nat) (lambdaStatusCode : Nat) :
    LambdaDispatch :=
  let statusTruthy :=
    match routeStatus with
    | some s => s != 0
    | none => false
  if statusTruthy then
    let s := routeStatus.getD 0
    if redirectStatuses.contains s then .redirected s
    else .responded s
  else
    .responded lambdaStatusCode

/-! ## Request id generation (`generateRequestId`, lines 1556-1565, and the
`podId` of the constructor, lines 157-159) -/

/-- Base-32 digits as produced by `Number.prototype.toString(32)`. -/
def isBase32Digit (c : Char) : Bool :=
  c.isDigit || ('a' ≤ c && c ≤ 'v')

/-- Characterization of the possible outputs of
`Math.random().toString(32)`: the value lies in [0, 1), so the rendering is
`"0"` for zero and otherwise `"0."` followed by the finite base-32
expansion of the dyadic fraction — digits `0-9a-v` with no trailing zero
digit. -/
def isMathRandomString32 (s : String) : Bool :=
  s == "0" ||
    (match s.data with
     | '0' :: '.' :: ds =>
        !ds.isEmpty && ds.all isBase32Digit && ds.getLast? != some '0'
     | _ => false)

/-- Lines 157-159: `Math.random().toString(32).slice(-5)` — the last five
characters (or the whole string when shorter). -/
def podIdOf (randString : String) : String :=
  ⟨randString.data.drop (randString.data.length - 5)⟩

/-- Decimal digits of a natural number, as a JS template literal renders
an integer.  Fuel keeps the recursion structural so terms compute. -/
def natToDecimalAux : Nat → Nat → List Char → List Char
  | 0, _, acc => acc
  | fuel + 1, n, acc =>
    if n == 0 then acc
    else natToDecimalAux fuel (n / 10) (Char.ofNat (48 + n % 10) :: acc)

def natToDecimal (n : Nat) : String :=
  if n == 0 then "0" else ⟨natToDecimalAux (n + 1) n []⟩

/-- A nibble as a lowercase hex character. -/
def hexDigitChar (n : Nat) : Char :=
  if n < 10 then Char.ofNat (48 + n) else Char.ofNat (87 + n)

/-- `Buffer.toString("hex")`: two lowercase hex characters per byte, high
nibble first. -/
def bytesToHex (bytes : List Nat) : List Char :=
  bytes.foldr (fun b acc => hexDigitChar (b / 16) :: hexDigitChar (b % 16) :: acc) []

/-- Lines 1561-1565: the (fake) tracing id
`dev1:` + [podId, Date.now(), randomBytes(6).toString("hex")].join("-"). -/
def generateRequestId (podId : String) (nowMs : Nat) (randBytes : List Nat) :
    String :=
  "dev1:" ++ podId ++ "-" ++ natToDecimal nowMs ++ "-" ++ (⟨bytesToHex randBytes⟩ : String)

/-- Character class [a-z0-9]. -/
def isLowerAlnum (c : Char) : Bool := c.isDigit || ('a' ≤ c && c ≤ 'z')

/-- Character class [0-9a-f]. -/
def isHexLower (c : Char) : Bool := c.isDigit || ('a' ≤ c && c ≤ 'f')

/-- Consume an expected literal character sequence, returning the rest of
the input on success. -/
def expectChars : List Char → List Char → Option (List Char)
  | [], rest => some rest
  | e :: es, c :: rest => if c == e then expectChars es rest else none
  | _ :: _, [] => none

/-- The spec pattern `dev1:[a-z0-9]{5}-\d+-[0-9a-f]{12}`, as an anchored
matcher: the literal `dev1:`, five characters of [a-z0-9], a hyphen, one
or more digits, a hyphen, and exactly twelve characters of [0-9a-f]. -/
def matchesNowIdRegex (s : String) : Bool :=
  match expectChars ['d', 'e', 'v', '1', ':'] s.data with
  | none => false
  | some rest1 =>
    let pod := rest1.take 5
    match expectChars ['-'] (rest1.drop 5) with
    | none => false
    | some rest2 =>
      let digits := rest2.takeWhile Char.isDigit
      match expectChars ['-'] (rest2.dropWhile Char.isDigit) with
      | none => false
      | some hexPart =>
        (pod.length == 5 && pod.all isLowerAlnum)
          && (!digits.isEmpty)
          && (hexPart.length == 12 && hexPart.all isHexLower)

/-! ## Helper lemmas -/

@[simp] theorem alistLookup_nil {α : Type} (k : String) :
    alistLookup ([] : List (String × α)) k = none := rfl

theorem alistLookup_cons {α : Type} (n : String) (v : α) (l : List (String × α)) (k : String) :
    alistLookup ((n, v) :: l) k = if n == k then some v else alistLookup l k := by
  by_cases h : n == k <;> simp [alistLookup, List.find?, h]

theorem alistLookup_erase {α : Type} (l : List (String × α)) (k : String) :
    alistLookup (alistErase l k) k = none := by
  induction l with
  | nil => rfl
  | cons e rest ih =>
    obtain ⟨n, v⟩ := e
    by_cases h : n == k
    · simpa [alistErase, h, bne] using ih
    · rw [show alistErase ((n, v) :: rest) k = (n, v) :: alistErase rest k by
        simp [alistErase, List.filter_cons, bne, h]]
      rw [alistLookup_cons]
      simpa [h] using ih

theorem alistLookup_erase_ne {α : Type} (l : List (String × α)) (k j : String)
    (h : j ≠ k) : alistLookup (alistErase l j) k = alistLookup l k := by
  induction l with
  | nil => rfl
  | cons e rest ih =>
    obtain ⟨n, v⟩ := e
    by_cases hn : n = j
    · subst hn
      have hnk : (n == k) = false := by simpa using h
      rw [show alistErase ((n, v) :: rest) n = alistErase rest n from by
        simp [alistErase, List.filter_cons]]
      rw [ih, alistLookup_cons, hnk]
      simp
    · have hne : (n != j) = true := by simpa [bne] using hn
      rw [show alistErase ((n, v) :: rest) j = (n, v) :: alistErase rest j from by
        simp [alistErase, List.filter_cons, hne]]
      rw [alistLookup_cons, ih, alistLookup_cons]

theorem alistLookup_append {α : Type} (l1 l2 : List (String × α)) (k : String) :
    alistLookup (l1 ++ l2) k =
      match alistLookup l1 k with
      | some v => some v
      | none => alistLookup l2 k := by
  induction l1 with
  | nil => simp
  | cons e rest ih =>
    obtain ⟨n, v⟩ := e
    by_cases h : n == k
    · simp [alistLookup_cons, h]
    · simp only [List.cons_append, alistLookup_cons, h]
      simpa [h] using ih

theorem alistLookup_mapVal (env : EnvConfig) (g : String × String → String)
    (k : String) :
    alistLookup (env.map (fun e => (e.1, g e))) k =
      (env.find? (fun e => e.1 == k)).map g := by
  induction env with
  | nil => rfl
  | cons e rest ih =>
    obtain ⟨n, v⟩ := e
    by_cases h : n == k
    · simp [alistLookup_cons, h, List.find?]
    · simp only [List.map_cons, alistLookup_cons, h, List.find?_cons_of_neg,
        Bool.not_eq_true]
      simpa [h, List.find?, alistLookup_cons] using ih

theorem alistLookup_filterKeys (l : List (String × String)) (p : String → Bool)
    (k : String) :
    alistLookup (l.filter (fun e => p e.1)) k =
      if p k then alistLookup l k else none := by
  induction l with
  | nil => simp [alistLookup]
  | cons e rest ih =>
    obtain ⟨n, v⟩ := e
    by_cases hk : n = k
    · subst hk
      cases hp : p n <;> simp [List.filter_cons, hp, alistLookup_cons, ih]
    · have hbeq : (n == k) = false := by simpa using hk
      cases hp : p n <;> simp [List.filter_cons, hp, alistLookup_cons, hbeq, ih]

theorem applyFsEvent_fold_inv (events : List FsNetEvent) (st0 : WatchBatchState)
    (n : String) (acc0 : Option Bool)
    (hc : n ∈ st0.changed ↔ acc0 = some true)
    (hr : n ∈ st0.removed ↔ acc0 = some false)
    (hf : acc0 = some false → alistLookup st0.files n = none) :
    (n ∈ (events.foldl applyFsEvent st0).changed
        ↔ events.foldl (markStep n) acc0 = some true)
    ∧ (n ∈ (events.foldl applyFsEvent st0).removed
        ↔ events.foldl (markStep n) acc0 = some false)
    ∧ (events.foldl (markStep n) acc0 = some false →
        alistLookup (events.foldl applyFsEvent st0).files n = none) := by
  induction events generalizing st0 acc0 with
  | nil => exact ⟨hc, hr, hf⟩
  | cons e rest ih =>
    cases e with
    | markChanged m ref =>
      by_cases hm : m = n
      · subst hm
        refine ih _ _ (by simp [applyFsEvent, fileChanged, markStep]) ?_ ?_
        · simp [applyFsEvent, fileChanged, markStep]
        · simp [markStep]
      · refine ih _ _ ?_ ?_ ?_
        · simpa [applyFsEvent, fileChanged, markStep, hm, Ne.symm hm] using hc
        · simpa [applyFsEvent, fileChanged, markStep, hm, Ne.symm hm] using hr
        · intro hacc
          have h1 : ((m == n) = false) := by simpa using hm
          simp only [applyFsEvent, markStep, if_neg hm] at hacc ⊢
          rw [alistLookup_cons, h1, if_neg (by simp),
            alistLookup_erase_ne _ _ _ hm]
          exact hf hacc
    | markRemoved m =>
      by_cases hm : m = n
      · subst hm
        refine ih _ _ ?_ ?_ ?_
        · simp [applyFsEvent, fileRemoved, markStep]
        · simp [applyFsEvent, fileRemoved, markStep]
        · intro _
          simpa [applyFsEvent, fileRemoved, markStep] using
            alistLookup_erase st0.files m
      · refine ih _ _ ?_ ?_ ?_
        · simpa [applyFsEvent, fileRemoved, markStep, hm, Ne.symm hm] using hc
        · simpa [applyFsEvent, fileRemoved, markStep, hm, Ne.symm hm] using hr
        · intro hacc
          simp only [applyFsEvent, fileRemoved, markStep, if_neg hm] at hacc ⊢
          rw [alistLookup_erase_ne _ _ _ hm]
          exact hf hacc

/-! ## Claim theorems -/

/-- C1: for every build key, at most one build is in progress at a time: a
`triggerBuild` call that finds an entry for its key in the
in-progress-build map starts no second build (the scheduler state is
unchanged) and awaits the existing build promise; and the entry for a key
is removed when its build resolves or rejects. -/
theorem triggerBuild_dedupes_per_key (st : SchedulerState) (m : BuildMatch)
    (requestPath : Option String) (now : Int) (freshId : Nat) (pid : Nat)
    (h : alistLookup st.inProgressBuilds (buildKey m requestPath) = some pid) :
    triggerBuild st m requestPath now freshId = (.awaitExisting pid, st)
    ∧ ∀ (st2 : SchedulerState) (key : String) (resolved : Bool),
        alistLookup (finishBuild st2 key resolved).inProgressBuilds key = none := by
  refine ⟨?_, ?_⟩
  · simp [triggerBuild, h]
  · intro st2 key resolved
    cases resolved <;> simpa [finishBuild] using alistLookup_erase st2.inProgressBuilds key

-- Witness for C1 at a concrete scheduler state.
theorem triggerBuild_dedupes_per_key_witness :
    triggerBuild ⟨[("app.js", 7)]⟩ ⟨"app.js", 0, []⟩ none 5000 9 =
      (.awaitExisting 7, ⟨[("app.js", 7)]⟩) :=
  (triggerBuild_dedupes_per_key ⟨[("app.js", 7)]⟩ ⟨"app.js", 0, []⟩ none 5000 9 7 (by rfl)).1

/-- C2: for a build key with no build in progress, `triggerBuild` skips the
rebuild exactly when the elapsed time since the match buildTimestamp is
strictly below 2000 ms; otherwise it starts a build and records it under
the key.  Hence two triggers 1.9 s apart produce one build while two
triggers 2.1 s apart produce two. -/
theorem triggerBuild_cooldown (st : SchedulerState) (m : BuildMatch)
    (requestPath : Option String) (now : Int) (freshId : Nat)
    (h : alistLookup st.inProgressBuilds (buildKey m requestPath) = none) :
    ((triggerBuild st m requestPath now freshId).1 = .skipCooldown
        ↔ now - m.buildTimestamp < 2000)
    ∧ (2000 ≤ now - m.buildTimestamp →
        triggerBuild st m requestPath now freshId =
          (.startBuild freshId, ⟨(buildKey m requestPath, freshId) :: st.inProgressBuilds⟩)) := by
  constructor
  · by_cases hc : now - m.buildTimestamp < 2000
    · simp [triggerBuild, h, msTwoSeconds, hc]
    · simp [triggerBuild, h, msTwoSeconds, hc]
  · intro hge
    simp [triggerBuild, h, msTwoSeconds, not_lt.mpr hge]

-- Witness for C2: a first build finishes at timestamp 1000; a second
-- trigger 1.9 s later is skipped, while one 2.1 s later starts a build.
theorem triggerBuild_cooldown_witness :
    ((triggerBuild ⟨[]⟩ ⟨"page.html", 1000, []⟩ none 2900 3).1 = .skipCooldown
        ↔ (2900 : Int) - 1000 < 2000)
    ∧ triggerBuild ⟨[]⟩ ⟨"page.html", 1000, []⟩ none 3100 4 =
        (.startBuild 4, ⟨[("page.html", 4)]⟩) :=
  ⟨(triggerBuild_cooldown ⟨[]⟩ ⟨"page.html", 1000, []⟩ none 2900 3 (by rfl)).1,
   (triggerBuild_cooldown ⟨[]⟩ ⟨"page.html", 1000, []⟩ none 3100 4 (by rfl)).2 (by decide)⟩

-- Counterexample for C3 as stated: the scheduler joins `src` and the
-- request path with a hyphen, not with the newline character.
theorem buildKey_newline_counterexample :
    buildKey ⟨"api/fn.js", 0, []⟩ (some "api/fn") ≠
      buildKeySpecced "api/fn.js" (some "api/fn") := by
  decide

/-- C3 (amended): for every build match and request path, the build key is
the match src when the build-result key is the sentinel (`null`), and
otherwise is src concatenated with a hyphen `"-"` followed by the request
path (the source uses `"-"` where the specification says `"\n"`). -/
theorem buildKey_characterization (m : BuildMatch) (p : String) :
    buildKey m none = m.src ∧ buildKey m (some p) = m.src ++ "-" ++ p :=
  ⟨rfl, rfl⟩

/-- C6: for every batch of filesystem events, the final `changed` and
`removed` sets are disjoint and reflect net effect — a path ends up in
`changed` exactly when the last marking for it was `fileChanged`, in
`removed` exactly when the last marking was `fileRemoved`, and a
net-removed path is also absent from the file index. -/
theorem fs_batch_disjoint_net_effect (files0 : List (String × BuilderOutput))
    (events : List FsNetEvent) :
    Disjoint (processFsEvents files0 events).changed
      (processFsEvents files0 events).removed
    ∧ (∀ n, n ∈ (processFsEvents files0 events).changed
        ↔ lastMark events n = some true)
    ∧ (∀ n, n ∈ (processFsEvents files0 events).removed
        ↔ lastMark events n = some false)
    ∧ (∀ n, n ∈ (processFsEvents files0 events).removed →
        alistLookup (processFsEvents files0 events).files n = none) := by
  have base : ∀ n : String, (n ∈ (processFsEvents files0 events).changed
        ↔ lastMark events n = some true)
      ∧ (n ∈ (processFsEvents files0 events).removed
        ↔ lastMark events n = some false)
      ∧ (lastMark events n = some false →
        alistLookup (processFsEvents files0 events).files n = none) := by
    intro n
    exact applyFsEvent_fold_inv events ⟨files0, ∅, ∅⟩ n none
      (by simp) (by simp) (by simp)
  refine ⟨?_, fun n => (base n).1, fun n => (base n).2.1, fun n hn => ?_⟩
  · rw [Finset.disjoint_left]
    intro n hn1 hn2
    have h1 := (base n).1.mp hn1
    have h2 := (base n).2.1.mp hn2
    rw [h1] at h2
    exact Option.noConfusion h2 (fun h => Bool.noConfusion h)
  · exact (base n).2.2 ((base n).2.1.mp hn)

/-- C7: for every base env and local env accepted by `validateEnvConfig`,
the merged result is right-biased — a key present in both maps gets the
local value (and survives exactly when its name is valid) — and no key
failing the name pattern appears in the result. -/
theorem validateEnvConfig_right_biased_valid (type : String)
    (env localEnv merged : EnvConfig)
    (hok : validateEnvConfig type env localEnv = .ok merged) :
    (∀ k v, (alistLookup env k).isSome = true → alistLookup localEnv k = some v →
        alistLookup merged k = if validEnvName k then some v else none)
    ∧ ∀ e ∈ merged, validEnvName e.1 = true := by
  have hm : merged = (mergeEnv env localEnv).filter (fun e => validEnvName e.1) := by
    simp only [validateEnvConfig] at hok
    split at hok
    · exact (Except.ok.inj hok).symm
    · exact Except.noConfusion hok
  subst hm
  constructor
  · intro k v henv hlocal
    rw [alistLookup_filterKeys]
    have hmerge : alistLookup (mergeEnv env localEnv) k = some v := by
      unfold mergeEnv
      rw [alistLookup_append, alistLookup_mapVal]
      have hfind : (env.find? (fun e => e.1 == k)).isSome = true := by
        simpa [alistLookup] using henv
      obtain ⟨e0, he0⟩ := Option.isSome_iff_exists.mp hfind
      have hk : e0.1 = k := by
        have := List.find?_some he0
        simpa using this
      rw [he0]
      simp [hk, hlocal]
    rw [hmerge]
  · intro e he
    exact (List.mem_filter.mp he).2

-- Witness for C7 at concrete env maps: the key present in both maps takes
-- the local value, the invalid key 9BAD is dropped.
theorem validateEnvConfig_witness :
    alistLookup [("API_KEY", "resolved"), ("B2", "x"), ("EXTRA", "1")] "API_KEY" =
      if validEnvName "API_KEY" then some "resolved" else none :=
  (validateEnvConfig_right_biased_valid ".env"
      [("API_KEY", "@secret"), ("B2", "x"), ("9BAD", "y")]
      [("API_KEY", "resolved"), ("EXTRA", "1")]
      [("API_KEY", "resolved"), ("B2", "x"), ("EXTRA", "1")]
      (by rfl)).1 "API_KEY" "resolved" (by rfl) (by rfl)

theorem collapseSlashesAux_no_double (cs : List Char) : ∀ (prev : Option Char),
    hasDoubleSlash (collapseSlashesAux prev cs) = false
    ∧ (prev = some '/' → (collapseSlashesAux prev cs).head? ≠ some '/') := by
  induction cs with
  | nil =>
    intro prev
    exact ⟨rfl, fun _ => by simp [collapseSlashesAux]⟩
  | cons c rest ih =>
    intro prev
    by_cases hc : (c == '/' && prev == some '/') = true
    · constructor
      · simpa [collapseSlashesAux, hc] using (ih prev).1
      · intro hp
        simpa [collapseSlashesAux, hc] using (ih prev).2 hp
    · have hout : collapseSlashesAux prev (c :: rest)
          = c :: collapseSlashesAux (some c) rest := by
        simp [collapseSlashesAux, hc]
      constructor
      · rw [hout]
        rw [show hasDoubleSlash (c :: collapseSlashesAux (some c) rest)
            = ((c == '/' && (collapseSlashesAux (some c) rest).head? == some '/')
               || hasDoubleSlash (collapseSlashesAux (some c) rest)) from rfl]
        rw [(ih (some c)).1]
        by_cases hcs : c = '/'
        · subst hcs
          have hhead := (ih (some '/')).2 rfl
          have hh : ((collapseSlashesAux (some '/') rest).head? == some '/') = false := by
            simpa using hhead
          simp [hh]
        · have hcf : (c == '/') = false := by simpa using hcs
          simp [hcf]
      · intro hp
        subst hp
        have hcf : ¬c = '/' := by
          intro hceq
          exact hc (by simp [hceq])
        simp [hout, hcf]

theorem hasDoubleSlash_collapseSlashes (cs : List Char) :
    hasDoubleSlash (collapseSlashes cs) = false :=
  (collapseSlashesAux_no_double cs none).1

/-- C5: for every request whose URL pathname contains a double slash, the
dispatcher collapses every run of slashes to a single slash (the result
has no double slash left), keeping the query string; a `GET` request is
answered with a 301 redirect to the cleaned URL, while any other method
has its URL rewritten in place and processing continues. -/
theorem urlCleanup_get_redirect_other_rewrite (method pathname : String)
    (search : Option String) (hds : hasDoubleSlash pathname.data = true) :
    (method = "GET" →
      urlCleanup method pathname search =
        .redirect ((⟨collapseSlashes pathname.data⟩ : String) ++ search.getD "") 301)
    ∧ (method ≠ "GET" →
      urlCleanup method pathname search =
        .rewrite ((⟨collapseSlashes pathname.data⟩ : String) ++ search.getD ""))
    ∧ hasDoubleSlash (collapseSlashes pathname.data) = false := by
  refine ⟨?_, ?_, hasDoubleSlash_collapseSlashes _⟩
  · intro hm
    subst hm
    simp [urlCleanup, hds]
  · intro hm
    have hm2 : (method == "GET") = false := by simpa using hm
    simp [urlCleanup, hds, hm2]

-- Witness for C5: GET //a//b?q=1 becomes a 301 to /a/b?q=1, while POST on
-- the same URL is rewritten in place with no redirect.
theorem urlCleanup_witness :
    urlCleanup "GET" "//a//b" (some "?q=1") = .redirect "/a/b?q=1" 301
    ∧ urlCleanup "POST" "//a//b" (some "?q=1") = .rewrite "/a/b?q=1" := by
  constructor
  · exact ((urlCleanup_get_redirect_other_rewrite "GET" "//a//b" (some "?q=1")
      (by rfl)).1 rfl).trans (by rfl)
  · exact ((urlCleanup_get_redirect_other_rewrite "POST" "//a//b" (some "?q=1")
      (by rfl)).2.1 (by decide)).trans (by rfl)

-- Counterexample for C4 as stated: in the recursive sub-route dispatch
-- (`callLevel = 1`) a request that resolves to a build match and carries
-- `pragma: no-cache` triggers no build before responding.
theorem assetPhase_no_rebuild_in_recursion :
    shouldRebuild ⟨some "no-cache", none⟩ = true
    ∧ (assetPhase ⟨"pages", 0, [("pages/a.html", .fileBlob "stale")]⟩
        "pages/a.html" ⟨some "no-cache", none⟩ 1 id).buildTriggered = false :=
  ⟨rfl, rfl⟩

/-- C4 (amended): at call level 0 — a top-level dispatch, not the
depth-capped recursive sub-route dispatch — a request that resolves to a
build match and carries a no-cache header (`pragma: no-cache` or
`cache-control: no-cache`, exactly) or finds no asset for the request path
triggers a build for that match and then re-resolves the asset before
responding. -/
theorem assetPhase_rebuilds_at_top_level (m : BuildMatch) (p : String)
    (h : RequestHeaders) (eff : BuildMatch → BuildMatch)
    (hcond : shouldRebuild h = true ∨ findAsset m p = none) :
    assetPhase m p h 0 eff =
      { buildTriggered := true, response := findAsset (eff m) p } := by
  rcases hcond with hc | hc
  · simp [assetPhase, hc]
  · simp [assetPhase, hc]

-- Witness for C4: a no-cache request at call level 0 over an empty output
-- map triggers the build and serves the freshly built asset.
theorem assetPhase_rebuilds_witness :
    assetPhase ⟨"index.html", 0, []⟩ "index.html" ⟨some "no-cache", none⟩ 0
        (fun mm => ⟨mm.src, mm.buildTimestamp, [("index.html", .fileBlob "built")]⟩) =
      { buildTriggered := true,
        response := some (.fileBlob "built", "index.html") } :=
  (assetPhase_rebuilds_at_top_level ⟨"index.html", 0, []⟩ "index.html"
    ⟨some "no-cache", none⟩
    (fun mm => ⟨mm.src, mm.buildTimestamp, [("index.html", .fileBlob "built")]⟩)
    (Or.inl (by rfl))).trans (by rfl)

/-- C9: for a request dispatched to a Lambda asset, a status code supplied
by the matched route rule (nonzero, and outside the redirect set, which
never reaches the Lambda) is kept on the response and the statusCode
returned by the invoked function is ignored; the statusCode of the
function is applied only when the route supplied no status. -/
theorem lambda_route_status_wins (routeStatus : Option Nat) (lambdaStatusCode : Nat) :
    (∀ s, routeStatus = some s → s ≠ 0 → redirectStatuses.contains s = false →
      dispatchLambdaStatus routeStatus lambdaStatusCode = .responded s)
    ∧ (routeStatus = none →
      dispatchLambdaStatus routeStatus lambdaStatusCode = .responded lambdaStatusCode) := by
  constructor
  · rintro s rfl hs0 hsr
    have ht : (s != 0) = true := by simpa [bne] using hs0
    have hmem : s ∉ redirectStatuses := by simpa using hsr
    simp [dispatchLambdaStatus, ht, hsr, hmem]
  · rintro rfl
    rfl

-- Witness for C9: a route status of 404 overrides the Lambda result
-- status 200; with no route status the Lambda status 200 is applied.
theorem lambda_route_status_wins_witness :
    dispatchLambdaStatus (some 404) 200 = .responded 404
    ∧ dispatchLambdaStatus none 200 = .responded 200 :=
  ⟨(lambda_route_status_wins (some 404) 200).1 404 rfl (by decide) (by rfl),
   (lambda_route_status_wins none 200).2 rfl⟩

theorem find?_eq_some_split {α : Type} (p : α → Bool) (l : List α) (x : α) :
    l.find? p = some x ↔
      ∃ l1 l2, l = l1 ++ x :: l2 ∧ p x = true ∧ ∀ e ∈ l1, p e = false := by
  induction l with
  | nil => simp
  | cons y rest ih =>
    by_cases hy : p y = true
    · rw [List.find?_cons_of_pos _ hy]
      constructor
      · intro h
        obtain rfl : y = x := Option.some.inj h
        exact ⟨[], rest, rfl, hy, by simp⟩
      · rintro ⟨l1, l2, heq, hx, hall⟩
        cases l1 with
        | nil =>
          simp only [List.nil_append, List.cons.injEq] at heq
          rw [heq.1]
        | cons z zs =>
          injection heq with h1 h2
          subst h1
          exact absurd hy (by simp [hall y (by simp)])
    · have hyf : p y = false := by simpa using hy
      rw [List.find?_cons_of_neg _ (by simp [hyf]), ih]
      constructor
      · rintro ⟨l1, l2, heq, hx, hall⟩
        refine ⟨y :: l1, l2, by rw [heq, List.cons_append], hx, ?_⟩
        intro e he
        rcases List.mem_cons.mp he with rfl | he2
        · exact hyf
        · exact hall e he2
      · rintro ⟨l1, l2, heq, hx, hall⟩
        cases l1 with
        | nil =>
          simp only [List.nil_append, List.cons.injEq] at heq
          rw [← heq.1] at hx
          exact absurd hx (by simp [hyf])
        | cons z zs =>
          injection heq with h1 h2
          subst h1
          exact ⟨zs, l2, h2, hx, fun e he => hall e (List.mem_cons_of_mem _ he)⟩

/-- C10: for every build match with a non-empty buildOutput and every
request path with no asset stored exactly at that key, `findAsset`
returns the first build-output entry whose basename without extension is
`index` and whose directory name equals the request path with a trailing
slash stripped — served under that entry's own key — and returns no asset
when no such entry exists. -/
theorem findAsset_index_fallback (m : BuildMatch) (p : String)
    (_hne : m.buildOutput ≠ [])
    (hmiss : alistLookup m.buildOutput p = none) :
    (∀ a k, findAsset m p = some (a, k) ↔
      ∃ l1 l2, m.buildOutput = l1 ++ (k, a) :: l2
        ∧ (isIndex k && (dirnameWithoutDot k == stripTrailingSlash p)) = true
        ∧ ∀ e ∈ l1,
            (isIndex e.1 && (dirnameWithoutDot e.1 == stripTrailingSlash p)) = false)
    ∧ ((∀ e ∈ m.buildOutput,
          (isIndex e.1 && (dirnameWithoutDot e.1 == stripTrailingSlash p)) = false) →
        findAsset m p = none) := by
  have hfa : findAsset m p =
      match m.buildOutput.find?
          (fun e => isIndex e.1 && dirnameWithoutDot e.1 == stripTrailingSlash p) with
      | some e => some (e.2, e.1)
      | none => none := by
    simp only [findAsset, hmiss]
  constructor
  · intro a k
    rw [hfa]
    constructor
    · intro h
      cases hfind : m.buildOutput.find?
          (fun e => isIndex e.1 && dirnameWithoutDot e.1 == stripTrailingSlash p) with
      | none => rw [hfind] at h; exact Option.noConfusion h
      | some e =>
        obtain ⟨n, b⟩ := e
        rw [hfind] at h
        injection h with h2
        injection h2 with hba hnk
        subst hba
        subst hnk
        exact (find?_eq_some_split _ _ _).mp hfind
    · rintro ⟨l1, l2, heq, hx, hall⟩
      have hfind : m.buildOutput.find?
          (fun e => isIndex e.1 && dirnameWithoutDot e.1 == stripTrailingSlash p)
            = some (k, a) :=
        (find?_eq_some_split _ _ _).mpr ⟨l1, l2, heq, hx, hall⟩
      rw [hfind]
  · intro hall
    rw [hfa]
    have hfind : m.buildOutput.find?
        (fun e => isIndex e.1 && dirnameWithoutDot e.1 == stripTrailingSlash p)
          = none :=
      List.find?_eq_none.mpr (fun x hx => by simp [hall x hx])
    rw [hfind]

-- Witness for C10: nothing is stored at the root path, so findAsset falls
-- back to the first index entry, served under its own key.
theorem findAsset_index_fallback_witness :
    findAsset ⟨"www", 0,
        [("css/style.css", .fileBlob "c"), ("index.html", .fileBlob "h")]⟩ "" =
      some (.fileBlob "h", "index.html") :=
  ((findAsset_index_fallback
      ⟨"www", 0, [("css/style.css", .fileBlob "c"), ("index.html", .fileBlob "h")]⟩
      "" (by decide) (by rfl)).1 (.fileBlob "h") "index.html").mpr
    ⟨[("css/style.css", .fileBlob "c")], [], rfl, by decide, by decide⟩

theorem expectChars_self (es rest : List Char) :
    expectChars es (es ++ rest) = some rest := by
  induction es with
  | nil => rfl
  | cons e es ih => simp [expectChars, ih]

theorem takeWhile_append_eq_left (p : Char → Bool) (l1 l2 : List Char) (a : Char)
    (h1 : ∀ x ∈ l1, p x = true) (ha : p a = false) :
    (l1 ++ a :: l2).takeWhile p = l1 := by
  induction l1 with
  | nil => simp [List.takeWhile_cons, ha]
  | cons y ys ih =>
    have hy : p y = true := h1 y (by simp)
    simp [List.takeWhile_cons, hy, ih (fun x hx => h1 x (by simp [hx]))]

theorem dropWhile_append_eq_cons (p : Char → Bool) (l1 l2 : List Char) (a : Char)
    (h1 : ∀ x ∈ l1, p x = true) (ha : p a = false) :
    (l1 ++ a :: l2).dropWhile p = a :: l2 := by
  induction l1 with
  | nil => simp [List.dropWhile_cons, ha]
  | cons y ys ih =>
    have hy : p y = true := h1 y (by simp)
    simp [List.dropWhile_cons, hy, ih (fun x hx => h1 x (by simp [hx]))]

theorem natToDecimalAux_digits (fuel : Nat) : ∀ (n : Nat) (acc : List Char),
    (∀ c ∈ acc, c.isDigit = true) →
    ∀ c ∈ natToDecimalAux fuel n acc, c.isDigit = true := by
  induction fuel with
  | zero =>
    intro n acc hacc
    simpa [natToDecimalAux] using hacc
  | succ fuel ih =>
    intro n acc hacc
    by_cases hn : (n == 0) = true
    · simpa [natToDecimalAux, hn] using hacc
    · rw [show natToDecimalAux (fuel + 1) n acc
          = natToDecimalAux fuel (n / 10) (Char.ofNat (48 + n % 10) :: acc) from by
        simp [natToDecimalAux, hn]]
      refine ih _ _ ?_
      intro c hc
      rcases List.mem_cons.mp hc with rfl | hc2
      · have hlt : n % 10 < 10 := Nat.mod_lt _ (by omega)
        set r := n % 10 with hr
        interval_cases r <;> decide
      · exact hacc c hc2

theorem natToDecimalAux_length (fuel : Nat) : ∀ (n : Nat) (acc : List Char),
    acc.length ≤ (natToDecimalAux fuel n acc).length := by
  induction fuel with
  | zero => intro n acc; simp [natToDecimalAux]
  | succ fuel ih =>
    intro n acc
    by_cases hn : (n == 0) = true
    · simp [natToDecimalAux, hn]
    · rw [show natToDecimalAux (fuel + 1) n acc
          = natToDecimalAux fuel (n / 10) (Char.ofNat (48 + n % 10) :: acc) from by
        simp [natToDecimalAux, hn]]
      exact le_trans (by simp) (ih (n / 10) (Char.ofNat (48 + n % 10) :: acc))

theorem natToDecimal_digits (t : Nat) :
    ∀ c ∈ (natToDecimal t).data, c.isDigit = true := by
  by_cases ht : (t == 0) = true
  · simp only [natToDecimal, ht, if_true]
    intro c hc
    rcases List.mem_singleton.mp hc with rfl
    decide
  · simp only [natToDecimal, ht, if_false]
    exact natToDecimalAux_digits (t + 1) t [] (by simp)

theorem natToDecimal_ne_nil (t : Nat) : (natToDecimal t).data ≠ [] := by
  by_cases ht : (t == 0) = true
  · simp [natToDecimal, ht]
  · unfold natToDecimal
    rw [if_neg ht]
    rw [show natToDecimalAux (t + 1) t []
        = natToDecimalAux t (t / 10) [Char.ofNat (48 + t % 10)] from by
      simp [natToDecimalAux, ht]]
    have h1 : 1 ≤ (natToDecimalAux t (t / 10) [Char.ofNat (48 + t % 10)]).length :=
      natToDecimalAux_length t (t / 10) [Char.ofNat (48 + t % 10)]
    intro hnil
    have hnil2 : natToDecimalAux t (t / 10) [Char.ofNat (48 + t % 10)] = [] := hnil
    rw [hnil2] at h1
    simp at h1

theorem hexDigitChar_isHexLower (m : Nat) (hm : m < 16) :
    isHexLower (hexDigitChar m) = true := by
  interval_cases m <;> decide

theorem bytesToHex_length (bytes : List Nat) :
    (bytesToHex bytes).length = 2 * bytes.length := by
  induction bytes with
  | nil => rfl
  | cons b bs ih =>
    simp only [bytesToHex, List.foldr_cons, List.length_cons]
    simp only [bytesToHex] at ih
    simp [ih]
    omega

theorem bytesToHex_hex (bytes : List Nat) (hb : ∀ b ∈ bytes, b < 256) :
    ∀ c ∈ bytesToHex bytes, isHexLower c = true := by
  induction bytes with
  | nil => simp [bytesToHex]
  | cons b bs ih =>
    intro c hc
    have hb0 : b < 256 := hb b (by simp)
    simp only [bytesToHex, List.foldr_cons] at hc
    rcases List.mem_cons.mp hc with rfl | hc2
    · exact hexDigitChar_isHexLower _ (Nat.div_lt_of_lt_mul (by omega))
    · rcases List.mem_cons.mp hc2 with rfl | hc3
      · exact hexDigitChar_isHexLower _ (Nat.mod_lt _ (by omega))
      · exact ih (fun x hx => hb x (by simp [hx])) c hc3

theorem isBase32Digit_isLowerAlnum (c : Char) (h : isBase32Digit c = true) :
    isLowerAlnum c = true := by
  simp only [isBase32Digit, Bool.or_eq_true, Bool.and_eq_true] at h
  rcases h with h | ⟨h1, h2⟩
  · simp [isLowerAlnum, h]
  · have h2' : decide ('a' ≤ c) = true := h1
    have hv : c ≤ 'v' := of_decide_eq_true h2
    have hz : c ≤ 'z' := le_trans hv (by decide)
    simp [isLowerAlnum, of_decide_eq_true h1, hz]

-- Counterexample for C8 as stated: Math.random() can return exactly 0.5,
-- whose base-32 rendering is "0.g"; slice(-5) then yields the pod id
-- "0.g", and the generated id fails the pattern (a dot, and fewer than
-- five pod characters).
theorem generateRequestId_pattern_counterexample :
    isMathRandomString32 "0.g" = true
    ∧ matchesNowIdRegex
        (generateRequestId (podIdOf "0.g") 1562364135397
          [0x7a, 0x87, 0x3a, 0xc9, 0x9c, 0x8e]) = false := by
  constructor
  · rfl
  · rfl

/-- C8 (amended): whenever the base-32 rendering of the Math.random draw
has at least five fraction digits — so that the pod id is five base-32
characters — the request id generated for a response matches
`dev1:[a-z0-9]{5}-\d+-[0-9a-f]{12}` for every timestamp and every choice
of the six random bytes. -/
theorem generateRequestId_matches (ds : List Char) (t : Nat) (bytes : List Nat)
    (h5 : 5 ≤ ds.length) (hds : ∀ c ∈ ds, isBase32Digit c = true)
    (hlen : bytes.length = 6) (hbv : ∀ b ∈ bytes, b < 256) :
    matchesNowIdRegex
      (generateRequestId (podIdOf ("0." ++ (⟨ds⟩ : String))) t bytes) = true := by
  have hpodlen : (ds.drop (ds.length - 5)).length = 5 := by
    rw [List.length_drop]
    omega
  have hpoddata : (podIdOf ("0." ++ (⟨ds⟩ : String))).data = ds.drop (ds.length - 5) := by
    have hd : ("0." ++ (⟨ds⟩ : String)).data = '0' :: '.' :: ds := by
      simp [String.data_append]
    show (("0." ++ (⟨ds⟩ : String)).data.drop
        (("0." ++ (⟨ds⟩ : String)).data.length - 5)) = ds.drop (ds.length - 5)
    rw [hd]
    simp only [List.length_cons]
    rw [show ds.length + 1 + 1 - 5 = (ds.length - 5) + 1 + 1 from by omega]
    rw [List.drop_succ_cons, List.drop_succ_cons]
  have hlit : ("dev1:" : String).data = ['d', 'e', 'v', '1', ':'] := rfl
  have hdash : ("-" : String).data = ['-'] := rfl
  have hdata : (generateRequestId (podIdOf ("0." ++ (⟨ds⟩ : String))) t bytes).data
      = ['d', 'e', 'v', '1', ':']
        ++ (ds.drop (ds.length - 5)
          ++ '-' :: ((natToDecimal t).data ++ '-' :: bytesToHex bytes)) := by
    simp only [generateRequestId, String.data_append, hlit, hdash, hpoddata]
    simp [List.append_assoc]
  unfold matchesNowIdRegex
  rw [hdata, expectChars_self]
  simp only []
  rw [List.take_left' hpodlen, List.drop_left' hpodlen]
  rw [show ('-' :: ((natToDecimal t).data ++ '-' :: bytesToHex bytes))
      = ['-'] ++ ((natToDecimal t).data ++ '-' :: bytesToHex bytes) from rfl,
    expectChars_self]
  simp only []
  rw [takeWhile_append_eq_left Char.isDigit _ _ '-' (natToDecimal_digits t) (by decide),
    dropWhile_append_eq_cons Char.isDigit _ _ '-' (natToDecimal_digits t) (by decide)]
  rw [show ('-' :: bytesToHex bytes) = ['-'] ++ bytesToHex bytes from rfl,
    expectChars_self]
  simp only []
  have hb1 : ((ds.drop (ds.length - 5)).length == 5) = true := by
    simp [hpodlen]
  have hb2 : (ds.drop (ds.length - 5)).all isLowerAlnum = true := by
    rw [List.all_eq_true]
    intro c hc
    exact isBase32Digit_isLowerAlnum c (hds c (List.drop_subset _ _ hc))
  have hb3 : (natToDecimal t).data.isEmpty = false := by
    cases hdec : (natToDecimal t).data with
    | nil => exact absurd hdec (natToDecimal_ne_nil t)
    | cons c cs => rfl
  have hb4 : ((bytesToHex bytes).length == 12) = true := by
    simp [bytesToHex_length, hlen]
  have hb5 : (bytesToHex bytes).all isHexLower = true := by
    rw [List.all_eq_true]
    intro c hc
    exact bytesToHex_hex bytes hbv c hc
  simp [hb1, hb2, hb3, hb4, hb5]
  omega

-- Witness for C8 near the example id of the source comment (pod id q4vlg:
-- the letter w of the comment is not a base-32 digit), timestamp
-- 1562364135397, random bytes 7a 87 3a c9 9c 8e.
theorem generateRequestId_matches_witness :
    matchesNowIdRegex
      (generateRequestId (podIdOf ("0." ++ (⟨['q', '4', 'v', 'l', 'g']⟩ : String)))
        1562364135397 [0x7a, 0x87, 0x3a, 0xc9, 0x9c, 0x8e]) = true :=
  generateRequestId_matches ['q', '4', 'v', 'l', 'g'] 1562364135397
    [0x7a, 0x87, 0x3a, 0xc9, 0x9c, 0x8e] (by decide) (by decide) (by rfl) (by decide)

end NowDev
